import Mathlib

/-!
Verification of the Go WebRTC streaming gateway
(`Go_WebRTC_Streaming`): shallow embedding of the presentation clock,
the H.264 start-code framer, the NAL-unit parser, the peer fan-out of
`WriteVideoSample`, the snapshot handshake, the source router and the
ingestion supervisor, together with theorems settling the specification
claims about them.

Bytes are modelled as `Nat` (the Go code only compares them with the
literals `0x00` and `0x01`), machine integers as `Nat`/`Int` with
explicit reduction modulo `2^32` / `2^64` where Go overflow semantics
matter.
-/

namespace GoWebRTC

/-! ### Go machine-integer helpers

`goInt64` reduces an unbounded integer to Go `int64` two's-complement
wrap-around semantics; `goUInt32OfInt64` is Go's truncating conversion
`uint32(x)` of an `int64` value (the low 32 bits).  Go's `/` on `int64`
truncates toward zero, which is `Int.tdiv`. -/

def goInt64 (x : Int) : Int :=
  (x + 2 ^ 63) % 2 ^ 64 - 2 ^ 63

def goUInt32OfInt64 (x : Int) : Nat :=
  (x % 2 ^ 32).toNat

/-! ### Presentation clock (`Manager.WriteVideoSample`, timestamp part)

Embeds the timestamp-tracking block of `Manager.WriteVideoSample`
(`webrtc` manager): fields `videoTimestamp uint32` and
`lastFrameTime time.Time`.  `NewManager` initialises `videoTimestamp`
to `0` and `lastFrameTime` to `time.Now()` (hence not the zero time).
The elapsed wall-clock time since the previous call enters as a
nanosecond count (`time.Duration.Nanoseconds`, non-negative for a
monotonic wall clock). -/

structure ClockState where
  /-- `m.videoTimestamp`, a `uint32` value (kept `< 2^32`). -/
  videoTimestamp : Nat
  /-- whether `m.lastFrameTime.IsZero()` holds. -/
  lastIsZero : Bool
deriving Repr, DecidableEq

/-- `NewManager` sets `videoTimestamp: 0, lastFrameTime: time.Now()`. -/
def ClockState.init : ClockState :=
  { videoTimestamp := 0, lastIsZero := false }

/-- `timestampDelta := uint32(elapsedNs * 90000 / 1000000000)` with
`elapsedNs : int64` Go semantics. -/
def timestampDelta (elapsedNs : Nat) : Nat :=
  goUInt32OfInt64 (Int.tdiv (goInt64 ((elapsedNs : Int) * 90000)) 1000000000)

/-- The delta actually applied by one advance: the computed raw delta
is forced to the default step (3000) when zero, and reset to the
default step when it exceeds 9000. -/
def clockStep (elapsedNs : Nat) : Nat :=
  let d0 := timestampDelta elapsedNs
  let d1 := if d0 = 0 then 3000 else d0
  if d1 > 9000 then 3000 else d1

/-- One execution of the timestamp block of `WriteVideoSample`:
the zero-`lastFrameTime` branch resets the counter, otherwise the
clamped delta is accumulated into the `uint32` counter (wrapping
addition). -/
def advanceClock (st : ClockState) (elapsedNs : Nat) : ClockState :=
  if st.lastIsZero then
    { videoTimestamp := 0, lastIsZero := false }
  else
    { videoTimestamp := (st.videoTimestamp + clockStep elapsedNs) % 2 ^ 32,
      lastIsZero := false }

/-- `currentTimestamp` read out by the rest of `WriteVideoSample`:
the counter value after the update. -/
def currentTimestamp (st : ClockState) (elapsedNs : Nat) : Nat :=
  (advanceClock st elapsedNs).videoTimestamp

/-- The sequence of timestamps returned by repeated advances from a
state, one per elapsed-nanoseconds entry. -/
def clockRun (st : ClockState) : List Nat → List Nat
  | [] => []
  | e :: es => currentTimestamp st e :: clockRun (advanceClock st e) es

/-- One advance with exactly 100 ms elapsed computes the raw delta
9000 (the largest value the clamp lets through). -/
lemma timestampDelta_100ms : timestampDelta (10 ^ 8) = 9000 := by decide

lemma clockStep_100ms : clockStep (10 ^ 8) = 9000 := by decide

/-- When the previous frame time is non-zero, one advance adds the
clamped step to the accumulator modulo `2^32`. -/
lemma advanceClock_eq (st : ClockState) (e : Nat) (h0 : st.lastIsZero = false) :
    advanceClock st e =
      { videoTimestamp := (st.videoTimestamp + clockStep e) % 2 ^ 32,
        lastIsZero := false } := by
  unfold advanceClock
  rw [h0]
  simp

/-- The clamped step always lies between 1 and 9000. -/
lemma clockStep_bounds (e : Nat) : 1 ≤ clockStep e ∧ clockStep e ≤ 9000 := by
  unfold clockStep
  by_cases h1 : timestampDelta e = 0 <;> by_cases h2 : timestampDelta e > 9000 <;>
    simp [h1, h2] <;> omega

/-- Closed form for repeated advances of 100 ms each from a fresh
manager: the accumulator is `9000 * n` reduced modulo `2^32`. -/
lemma advanceClock_iterate_100ms (n : Nat) :
    ((fun st => advanceClock st (10 ^ 8))^[n] ClockState.init).videoTimestamp
        = (9000 * n) % 2 ^ 32 ∧
      ((fun st => advanceClock st (10 ^ 8))^[n] ClockState.init).lastIsZero = false := by
  induction n with
  | zero => simp [ClockState.init]
  | succ n ih =>
    rw [Function.iterate_succ_apply']
    set st := (fun st => advanceClock st (10 ^ 8))^[n] ClockState.init with hst
    rw [advanceClock_eq st (10 ^ 8) ih.2, clockStep_100ms]
    refine ⟨?_, rfl⟩
    show (st.videoTimestamp + 9000) % 2 ^ 32 = 9000 * (n + 1) % 2 ^ 32
    rw [ih.1]
    omega

/-- Claim C4 (counterexample): the returned timestamps are not
non-decreasing across every sequence of advances.  Starting from a
fresh manager and advancing 477219 times with 100 ms elapsed each time
(raw delta 9000, passed through unclamped), the 32-bit accumulator
wraps: the 477219-th returned timestamp is strictly smaller than the
477218-th. -/
theorem clock_wraps_after_many_advances :
    ((fun st => advanceClock st (10 ^ 8))^[477219] ClockState.init).videoTimestamp
      < ((fun st => advanceClock st (10 ^ 8))^[477218] ClockState.init).videoTimestamp := by
  rw [(advanceClock_iterate_100ms 477219).1, (advanceClock_iterate_100ms 477218).1]
  norm_num

/-- Claim C4 (amended): across every sequence of Presentation Clock
advances the returned timestamps are monotonically non-decreasing as
long as the 32-bit accumulator does not wrap around; each advance adds
a step of at least 1 and at most 9000 ticks modulo `2^32`, so the value
is non-decreasing whenever the accumulator stays below `2^32`. -/
theorem clock_monotone_without_wrap (st : ClockState) (e : Nat)
    (h0 : st.lastIsZero = false) (h1 : st.videoTimestamp + 9000 < 2 ^ 32) :
    st.videoTimestamp ≤ (advanceClock st e).videoTimestamp ∧
      (advanceClock st e).videoTimestamp ≤ st.videoTimestamp + 9000 := by
  obtain ⟨hd1, hd2⟩ := clockStep_bounds e
  rw [advanceClock_eq st e h0]
  show st.videoTimestamp ≤ (st.videoTimestamp + clockStep e) % 2 ^ 32 ∧
    (st.videoTimestamp + clockStep e) % 2 ^ 32 ≤ st.videoTimestamp + 9000
  rw [Nat.mod_eq_of_lt (by omega)]
  omega

/-- Claim C4 (amended, witness): the monotonicity theorem applied to
the fresh manager state with a 100 ms advance. -/
theorem clock_monotone_without_wrap_witness :
    ClockState.init.lastIsZero = false ∧
      ClockState.init.videoTimestamp + 9000 < 2 ^ 32 ∧
      (ClockState.init.videoTimestamp ≤
          (advanceClock ClockState.init (10 ^ 8)).videoTimestamp ∧
        (advanceClock ClockState.init (10 ^ 8)).videoTimestamp ≤
          ClockState.init.videoTimestamp + 9000) :=
  ⟨rfl, by norm_num [ClockState.init],
    clock_monotone_without_wrap ClockState.init (10 ^ 8) rfl
      (by norm_num [ClockState.init])⟩

/-- Claim C5: when the raw computed delta exceeds the 9000-tick bound
(e.g. a multi-minute gap), the clock substitutes the default step of
3000 ticks — the same step the clamp always substitutes — rather than
the raw elapsed value, which the second conjunct records as different
from the applied step. -/
theorem clock_clamps_large_gap (st : ClockState) (e : Nat)
    (h0 : st.lastIsZero = false) (h2 : 9000 < timestampDelta e) :
    (advanceClock st e).videoTimestamp = (st.videoTimestamp + 3000) % 2 ^ 32 ∧
      3000 ≠ timestampDelta e := by
  have hstep : clockStep e = 3000 := by
    unfold clockStep
    have hne : timestampDelta e ≠ 0 := by omega
    simp [hne, h2]
  rw [advanceClock_eq st e h0, hstep]
  exact ⟨rfl, by omega⟩

/-- Claim C5 (witness): a two-minute gap has raw delta 10 800 000,
which exceeds the bound, and the clock advances the fresh manager by
exactly 3000 ticks. -/
theorem clock_clamps_large_gap_witness :
    9000 < timestampDelta (120 * 10 ^ 9) ∧
      ((advanceClock ClockState.init (120 * 10 ^ 9)).videoTimestamp
          = (ClockState.init.videoTimestamp + 3000) % 2 ^ 32 ∧
        3000 ≠ timestampDelta (120 * 10 ^ 9)) :=
  ⟨by decide, clock_clamps_large_gap ClockState.init (120 * 10 ^ 9) rfl (by decide)⟩

/-! ### Start-code search (shared by the framer and the NAL parser)

Both `splitH264Frames` functions (`rtsp` package and `rtmp` package)
and `Manager.parseH264NALUnits` contain the identical scanning loop
`for i := lo; i < len(data)-3; i++` testing for a 4-byte start code
`00 00 00 01` or a 3-byte start code `00 00 01` at position `i`.
`List.Nat` subtraction mirrors Go's negative bound (no iterations when
`len(data) < 3`). -/

/-- The loop body's compound condition at index `i`. -/
def scFound (d : List Nat) (i : Nat) : Bool :=
  (decide (i + 4 ≤ d.length) && (d.getD i 255 == 0) && (d.getD (i + 1) 255 == 0)
      && (d.getD (i + 2) 255 == 0) && (d.getD (i + 3) 255 == 1))
    || (decide (i + 3 ≤ d.length) && (d.getD i 255 == 0) && (d.getD (i + 1) 255 == 0)
      && (d.getD (i + 2) 255 == 1))

/-- The whole scanning loop: the first index `i ∈ [lo, len(d)-3)` at
which a start code begins, if any. -/
def findSCfrom (d : List Nat) (lo : Nat) : Option Nat :=
  (List.range' lo (d.length - 3 - lo)).find? (scFound d)

/-- The `bufio.SplitFunc` `splitH264Frames` (identical in the `rtsp`
and `rtmp` packages): given the buffered data and the at-end-of-stream
flag, return the number of bytes to advance and the token to emit
(`none` when no token is produced). -/
def splitH264Frames (data : List Nat) (atEOF : Bool) : Nat × Option (List Nat) :=
  if atEOF ∧ data.length = 0 then (0, none)
  else
    match findSCfrom data 0 with
    | none => if atEOF then (data.length, some data) else (0, none)
    | some startPos =>
      match findSCfrom data (startPos + 4) with
      | none =>
        if atEOF then (data.length, some (data.drop startPos))
        else (startPos, none)
      | some nextStartPos =>
        (nextStartPos, some ((data.drop startPos).take (nextStartPos - startPos)))

lemma mem_range'_iff {lo n a : Nat} : a ∈ List.range' lo n ↔ lo ≤ a ∧ a < lo + n := by
  constructor
  · intro h
    obtain ⟨i, hi, rfl⟩ := List.mem_range'.mp h
    omega
  · intro ⟨h1, h2⟩
    exact List.mem_range'.mpr ⟨a - lo, by omega, by omega⟩

lemma findSCfrom_some {d : List Nat} {lo p : Nat} (h : findSCfrom d lo = some p) :
    lo ≤ p ∧ p + 4 ≤ d.length ∧ scFound d p = true := by
  have hmem := List.mem_of_find?_eq_some h
  have hsc := List.find?_some h
  have := mem_range'_iff.mp hmem
  exact ⟨this.1, by omega, hsc⟩

/-- Branch equation: no start code in the buffer. -/
lemma splitH264Frames_noSC {data : List Nat} (atEOF : Bool)
    (hf : findSCfrom data 0 = none) (h0 : ¬(atEOF = true ∧ data.length = 0)) :
    splitH264Frames data atEOF =
      if atEOF then (data.length, some data) else (0, none) := by
  unfold splitH264Frames
  rw [if_neg h0, hf]

/-- Branch equation: a start code but no second one. -/
lemma splitH264Frames_lastSC {data : List Nat} (atEOF : Bool) {startPos : Nat}
    (hf : findSCfrom data 0 = some startPos)
    (hg : findSCfrom data (startPos + 4) = none)
    (h0 : ¬(atEOF = true ∧ data.length = 0)) :
    splitH264Frames data atEOF =
      if atEOF then (data.length, some (data.drop startPos))
      else (startPos, none) := by
  unfold splitH264Frames
  rw [if_neg h0, hf]
  dsimp only
  rw [hg]

/-- Branch equation: two start codes in the buffer. -/
lemma splitH264Frames_midSC {data : List Nat} (atEOF : Bool) {startPos nextStartPos : Nat}
    (hf : findSCfrom data 0 = some startPos)
    (hg : findSCfrom data (startPos + 4) = some nextStartPos)
    (h0 : ¬(atEOF = true ∧ data.length = 0)) :
    splitH264Frames data atEOF =
      (nextStartPos, some ((data.drop startPos).take (nextStartPos - startPos))) := by
  unfold splitH264Frames
  rw [if_neg h0, hf]
  dsimp only
  rw [hg]

/-- If the split function emits a token, the buffer was non-empty and
the advance count is positive. -/
lemma splitH264Frames_token_pos {data : List Nat} {atEOF : Bool} {t : List Nat}
    (h : (splitH264Frames data atEOF).2 = some t) :
    0 < (splitH264Frames data atEOF).1 ∧ data ≠ [] := by
  by_cases h0 : atEOF = true ∧ data.length = 0
  · have : splitH264Frames data atEOF = (0, none) := by
      unfold splitH264Frames
      rw [if_pos h0]
    rw [this] at h
    simp at h
  · have hlen : data ≠ [] → data.length ≠ 0 := by
      intro hne hc
      exact hne (List.eq_nil_of_length_eq_zero hc)
    match hf : findSCfrom data 0 with
    | none =>
      rw [splitH264Frames_noSC atEOF hf h0] at h ⊢
      by_cases ha : atEOF = true
      · rw [if_pos ha] at h ⊢
        have h1 : data.length ≠ 0 := fun hc => h0 ⟨ha, hc⟩
        exact ⟨by omega, fun hc => h1 (by simp [hc])⟩
      · rw [if_neg ha] at h
        simp at h
    | some startPos =>
      have hsp := findSCfrom_some hf
      match hg : findSCfrom data (startPos + 4) with
      | none =>
        rw [splitH264Frames_lastSC atEOF hf hg h0] at h ⊢
        by_cases ha : atEOF = true
        · rw [if_pos ha] at h ⊢
          exact ⟨by omega, fun hc => by rw [hc] at hsp; simp at hsp⟩
        · rw [if_neg ha] at h
          simp at h
      | some nextStartPos =>
        have hnp := findSCfrom_some hg
        rw [splitH264Frames_midSC atEOF hf hg h0] at h ⊢
        exact ⟨by omega, fun hc => by rw [hc] at hsp; simp at hsp⟩

/-- Total size of the not-yet-delivered input chunks. -/
def chunksBytes (cs : List (List Nat)) : Nat :=
  (cs.map List.length).sum

/-- The `bufio.Scanner` driver loop specialised to `splitH264Frames`:
`b` is the buffered data, `cs` the chunks the reader has not yet
delivered (end of stream once they are exhausted).  Emitting a token
advances the buffer; when no token is produced the scanner reads the
next chunk, or stops at end of stream.  This models `Scanner.Scan`
being called until it returns false. -/
def scanTokens (b : List Nat) (cs : List (List Nat)) : List (List Nat) :=
  match hr : splitH264Frames b cs.isEmpty with
  | (adv, some t) => t :: scanTokens (b.drop adv) cs
  | (adv, none) =>
    match cs with
    | [] => []
    | c :: rest => scanTokens (b.drop adv ++ c) rest
termination_by 2 * (b.length + chunksBytes cs) + cs.length
decreasing_by
  · have h1 : (splitH264Frames b cs.isEmpty).1 = adv := by rw [hr]
    have h2 : (splitH264Frames b cs.isEmpty).2 = some t := by rw [hr]
    obtain ⟨hpos, hne⟩ := splitH264Frames_token_pos h2
    rw [h1] at hpos
    have hb : b.length ≠ 0 := fun hc => hne (List.eq_nil_of_length_eq_zero hc)
    simp only [List.length_drop]
    omega
  · simp only [List.length_append, List.length_drop, chunksBytes, List.map_cons,
      List.sum_cons, List.length_cons]
    have : (b.length - adv) ≤ b.length := Nat.sub_le _ _
    omega

/-! ### `Manager.parseH264NALUnits`

The NAL-unit extraction loop of the `webrtc` manager.  Each iteration
finds the next start code at or after `offset`, skips it (4 bytes when
`data[startPos+3] == 0x01`, else 3), finds the following start code,
and either emits the final unit `data[nalStart:]` or the unit
`data[nalStart:nextStartPos]` before continuing at `nextStartPos`.
The Go function always returns a `nil` error; the error component is
kept to mirror the signature `([][]byte, error)`. -/

def parseLoop (data : List Nat) (offset : Nat) : List (List Nat) :=
  if offset < data.length then
    match hf : findSCfrom data offset with
    | none => []
    | some startPos =>
      let nalStart := if data.getD (startPos + 3) 255 = 1 then startPos + 4 else startPos + 3
      match hg : findSCfrom data nalStart with
      | none => [data.drop nalStart]
      | some nextStartPos =>
        ((data.drop nalStart).take (nextStartPos - nalStart)) :: parseLoop data nextStartPos
  else []
termination_by data.length - offset
decreasing_by
  have hsp := findSCfrom_some hf
  have hnp := findSCfrom_some hg
  have h1 : offset ≤ startPos := hsp.1
  have h2 : startPos + 3 ≤ nalStart := by
    simp only [nalStart]
    split <;> omega
  have h3 : nalStart ≤ nextStartPos := hnp.1
  have h4 : nextStartPos + 4 ≤ data.length := hnp.2.1
  omega

/-- `Manager.parseH264NALUnits`: runs the loop from offset 0 and always
returns a `nil` error. -/
def parseH264NALUnits (data : List Nat) : List (List Nat) × Option String :=
  (parseLoop data 0, none)

lemma parseLoop_stop {data : List Nat} {offset : Nat} (h : ¬ offset < data.length) :
    parseLoop data offset = [] := by
  rw [parseLoop, if_neg h]

lemma parseLoop_none {data : List Nat} {offset : Nat} (h : offset < data.length)
    (hf : findSCfrom data offset = none) : parseLoop data offset = [] := by
  rw [parseLoop, if_pos h, hf]

lemma parseLoop_last {data : List Nat} {offset startPos nalStart : Nat}
    (h : offset < data.length) (hf : findSCfrom data offset = some startPos)
    (hns : nalStart = if data.getD (startPos + 3) 255 = 1 then startPos + 4 else startPos + 3)
    (hg : findSCfrom data nalStart = none) :
    parseLoop data offset = [data.drop nalStart] := by
  rw [parseLoop, if_pos h, hf]
  dsimp only
  rw [← hns, hg]

lemma parseLoop_cons {data : List Nat} {offset startPos nalStart next : Nat}
    (h : offset < data.length) (hf : findSCfrom data offset = some startPos)
    (hns : nalStart = if data.getD (startPos + 3) 255 = 1 then startPos + 4 else startPos + 3)
    (hg : findSCfrom data nalStart = some next) :
    parseLoop data offset
      = ((data.drop nalStart).take (next - nalStart)) :: parseLoop data next := by
  rw [parseLoop, if_pos h, hf]
  dsimp only
  rw [← hns, hg]

/-! ### Start-code occurrence predicates -/

/-- A 4-byte start code `00 00 00 01` begins at position `i`. -/
def sc4At (d : List Nat) (i : Nat) : Prop :=
  i + 4 ≤ d.length ∧ d.getD i 255 = 0 ∧ d.getD (i + 1) 255 = 0
    ∧ d.getD (i + 2) 255 = 0 ∧ d.getD (i + 3) 255 = 1

/-- A 3-byte start code `00 00 01` begins at position `i`. -/
def sc3At (d : List Nat) (i : Nat) : Prop :=
  i + 3 ≤ d.length ∧ d.getD i 255 = 0 ∧ d.getD (i + 1) 255 = 0
    ∧ d.getD (i + 2) 255 = 1

instance (d : List Nat) (i : Nat) : Decidable (sc4At d i) := by
  unfold sc4At
  infer_instance

instance (d : List Nat) (i : Nat) : Decidable (sc3At d i) := by
  unfold sc3At
  infer_instance

lemma scFound_iff {d : List Nat} {i : Nat} :
    scFound d i = true ↔ sc4At d i ∨ sc3At d i := by
  unfold scFound sc4At sc3At
  simp [Bool.or_eq_true, Bool.and_eq_true, decide_eq_true_iff, and_assoc]

lemma findSCfrom_eq_none {d : List Nat} {lo : Nat}
    (h : ∀ i, lo ≤ i → ¬(sc4At d i ∨ sc3At d i)) :
    findSCfrom d lo = none := by
  unfold findSCfrom
  rw [List.find?_eq_none]
  intro i hi
  have := (mem_range'_iff.mp hi).1
  intro hsc
  exact h i this (scFound_iff.mp hsc)

/-! ### Peer session manager (`webrtc.Manager`)

The `webrtc` manager's peer registry and the fan-out of
`Manager.WriteVideoSample`.  A `Peer` carries the fields the manager
reads: its id, whether `VideoTrack != nil`, the `IsConnected` flag, and
the pion connection/ICE states reachable through `peer.Connection`
(`WriteVideoSample` never consults the last three; they are modelled so
that statements about them can be made).  Writing a sample to a track
is modelled by recording the write; `WriteSample` errors are logged and
ignored by the code, so every attempted write is recorded. -/

inductive PeerConnectionState
  | new | connecting | connected | disconnected | failed | closed
deriving Repr, DecidableEq

inductive ICEConnectionState
  | new | checking | connected | completed | disconnected | failed | closed
deriving Repr, DecidableEq

structure Peer where
  id : String
  hasVideoTrack : Bool
  isConnected : Bool
  connState : PeerConnectionState
  iceState : ICEConnectionState
deriving Repr, DecidableEq

/-- `media.Sample`: payload, duration (nanoseconds) and packet
timestamp. -/
structure Sample where
  data : List Nat
  durationNs : Nat
  packetTimestamp : Nat
deriving Repr, DecidableEq

/-- One `peer.VideoTrack.WriteSample(sample)` call. -/
structure Write where
  peerId : String
  sample : Sample
deriving Repr, DecidableEq

structure ManagerState where
  peers : List Peer
  clock : ClockState
  snapshotRequestPending : Bool
  snapshotData : Option (List Nat)
deriving Repr, DecidableEq

/-- `frameDuration := time.Duration(float64(time.Second) / m.frameRate)`
with the fixed `frameRate` 30.0 set by `NewManager`:
`float64(10^9) / 30.0 = 33333333.33…`, truncated to int64 nanoseconds. -/
def frameDurationNs : Nat := 33333333

/-- The snapshot block at the top of `WriteVideoSample`: a pending
request is consumed and a copy of the frame is placed into the data
slot unless the slot is already full (then the frame is dropped). -/
def serviceSnapshot (m : ManagerState) (data : List Nat) : ManagerState :=
  if m.snapshotRequestPending then
    { m with
      snapshotRequestPending := false,
      snapshotData := if m.snapshotData = none then some data else m.snapshotData }
  else m

/-- The classification loop of `WriteVideoSample`: empty units are
skipped, units with `nalUnit[0] & 0x1F` equal to 7 (SPS) or 8 (PPS) go
to the parameter-set list, the rest to the picture list, preserving
order. -/
def partitionNALUnits : List (List Nat) → List (List Nat) × List (List Nat)
  | [] => ([], [])
  | u :: rest =>
    let p := partitionNALUnits rest
    if u.length = 0 then p
    else
      let nalType := Nat.land (u.headD 0) 0x1F
      if nalType = 7 ∨ nalType = 8 then (u :: p.1, p.2)
      else (p.1, u :: p.2)

/-- One fan-out loop of `WriteVideoSample`: for each peer (in registry
snapshot order), skip it when it has no video track, otherwise write
every unit with the given duration and packet timestamp. -/
def fanOut (peers : List Peer) (units : List (List Nat)) (durationNs ts : Nat) :
    List Write :=
  peers.flatMap fun p =>
    if p.hasVideoTrack then
      units.map fun u => { peerId := p.id, sample := ⟨u, durationNs, ts⟩ }
    else []

/-- `Manager.WriteVideoSample(data, timestamp)` (the `timestamp`
argument is unused by the function): empty payloads return at once;
otherwise the snapshot request is serviced, the presentation clock is
advanced once (`elapsedNs` is the wall-clock time since the previous
call), the payload is parsed into NAL units, and on a parse error or
zero units the call stops; otherwise parameter sets are sent to every
peer holding a video track with zero duration/timestamp, followed by
the picture units with the nominal frame duration and the shared
current timestamp.  Returns the new manager state and the list of
attempted track writes in order. -/
def WriteVideoSample (m : ManagerState) (data : List Nat) (elapsedNs : Nat) :
    ManagerState × List Write :=
  if data.length = 0 then (m, [])
  else
    let m1 := serviceSnapshot m data
    let m2 := { m1 with clock := advanceClock m1.clock elapsedNs }
    let ts := m2.clock.videoTimestamp
    let parsed := parseH264NALUnits data
    if parsed.2 ≠ none then (m2, [])
    else if parsed.1.length = 0 then (m2, [])
    else
      let units := partitionNALUnits parsed.1
      (m2, fanOut m2.peers units.1 0 0 ++ fanOut m2.peers units.2 frameDurationNs ts)

lemma serviceSnapshot_peers (m : ManagerState) (data : List Nat) :
    (serviceSnapshot m data).peers = m.peers := by
  unfold serviceSnapshot
  split <;> rfl

lemma serviceSnapshot_clock (m : ManagerState) (data : List Nat) :
    (serviceSnapshot m data).clock = m.clock := by
  unfold serviceSnapshot
  split <;> rfl

/-- The state returned by a `WriteVideoSample` call on a non-empty
payload: the snapshot handshake is serviced and the clock advanced
once, on every control path. -/
lemma WriteVideoSample_state (m : ManagerState) (data : List Nat) (e : Nat)
    (h : data.length ≠ 0) :
    (WriteVideoSample m data e).1
      = { serviceSnapshot m data with
          clock := advanceClock (serviceSnapshot m data).clock e } := by
  unfold WriteVideoSample
  rw [if_neg h]
  dsimp only
  split
  · rfl
  · split <;> rfl

/-- The writes produced by a `WriteVideoSample` call that reaches the
fan-out loops. -/
lemma WriteVideoSample_writes (m : ManagerState) (data : List Nat) (e : Nat)
    (h0 : data.length ≠ 0) (h1 : parseLoop data 0 ≠ []) :
    (WriteVideoSample m data e).2
      = fanOut m.peers (partitionNALUnits (parseLoop data 0)).1 0 0
        ++ fanOut m.peers (partitionNALUnits (parseLoop data 0)).2 frameDurationNs
            (advanceClock m.clock e).videoTimestamp := by
  unfold WriteVideoSample
  rw [if_neg h0]
  dsimp only [parseH264NALUnits]
  rw [if_neg (by simp)]
  rw [if_neg (by simpa using h1)]
  rw [serviceSnapshot_peers, serviceSnapshot_clock]

/-- A `WriteVideoSample` call that frames no units writes nothing. -/
lemma WriteVideoSample_writes_empty (m : ManagerState) (data : List Nat) (e : Nat)
    (h1 : parseLoop data 0 = []) :
    (WriteVideoSample m data e).2 = [] := by
  unfold WriteVideoSample
  by_cases h : data.length = 0
  · rw [if_pos h]
  · rw [if_neg h]
    dsimp only [parseH264NALUnits]
    rw [if_neg (by simp), if_pos (by simp [h1])]

/-- A concrete registered session whose connection state is `new` and
whose ICE state is `new` — outside every state set the specification
allows for sending — but holding a video track. -/
def peerNew : Peer :=
  { id := "p1", hasVideoTrack := true, isConnected := false,
    connState := PeerConnectionState.new, iceState := ICEConnectionState.new }

/-- A manager with `peerNew` as its only session. -/
def mgrNew : ManagerState :=
  { peers := [peerNew], clock := ClockState.init,
    snapshotRequestPending := false, snapshotData := none }

/-- Claim C10: `parseH264NALUnits` returns a `nil` error for every
input, so the parse-error branch of `WriteVideoSample` is unreachable;
and for any payload containing no 3- or 4-byte start code the parse
yields zero NAL units, so `WriteVideoSample` performs no track write. -/
theorem parseH264NALUnits_total (data : List Nat) :
    (parseH264NALUnits data).2 = none ∧
      ((∀ i < data.length, ¬(sc4At data i ∨ sc3At data i)) →
        (parseH264NALUnits data).1 = [] ∧
          ∀ m e, (WriteVideoSample m data e).2 = []) := by
  refine ⟨rfl, fun hno => ?_⟩
  have hno' : ∀ i, 0 ≤ i → ¬(sc4At data i ∨ sc3At data i) := by
    intro i _
    by_cases hi : i < data.length
    · exact hno i hi
    · rintro (h4 | h3)
      · exact hi (by have := h4.1; omega)
      · exact hi (by have := h3.1; omega)
  have hfind : findSCfrom data 0 = none := findSCfrom_eq_none hno'
  have hloop : parseLoop data 0 = [] := by
    by_cases h : 0 < data.length
    · exact parseLoop_none h hfind
    · exact parseLoop_stop h
  exact ⟨hloop, fun m e => WriteVideoSample_writes_empty m data e hloop⟩

/-- Claim C10 (witness): the payload `[1, 2, 3]` contains no start
code; the parser reports no error, yields zero units, and a call on a
manager with one registered peer writes nothing. -/
theorem parseH264NALUnits_total_witness :
    (parseH264NALUnits [1, 2, 3]).2 = none ∧
      (parseH264NALUnits [1, 2, 3]).1 = [] ∧
      (WriteVideoSample mgrNew [1, 2, 3] 0).2 = [] :=
  ⟨(parseH264NALUnits_total [1, 2, 3]).1,
    ((parseH264NALUnits_total [1, 2, 3]).2 (by decide)).1,
    ((parseH264NALUnits_total [1, 2, 3]).2 (by decide)).2 mgrNew 0⟩

lemma parseLoop_single_frame : parseLoop [0, 0, 0, 1, 65] 0 = [[65]] := by
  rw [parseLoop_last (by decide)
    (show findSCfrom [0, 0, 0, 1, 65] 0 = some 0 by decide)
    (show 4 = _ by decide) (by decide)]
  decide

/-- Claim C1 (counterexample): `WriteVideoSample` does not restrict
delivery to sessions in the connected/connecting connection states and
connected/completed/checking ICE states.  A session in connection state
`new` and ICE state `new` (with a video track) receives the picture
unit of the payload `00 00 00 01 41`. -/
theorem writeVideoSample_ignores_states :
    peerNew.connState ≠ PeerConnectionState.connected ∧
      peerNew.connState ≠ PeerConnectionState.connecting ∧
      peerNew.iceState ≠ ICEConnectionState.connected ∧
      peerNew.iceState ≠ ICEConnectionState.completed ∧
      peerNew.iceState ≠ ICEConnectionState.checking ∧
      (WriteVideoSample mgrNew [0, 0, 0, 1, 65] 0).2
        = [{ peerId := "p1", sample := ⟨[65], frameDurationNs, 3000⟩ }] := by
  refine ⟨by decide, by decide, by decide, by decide, by decide, ?_⟩
  rw [WriteVideoSample_writes mgrNew [0, 0, 0, 1, 65] 0 (by decide)
    (by rw [parseLoop_single_frame]; decide)]
  rw [parseLoop_single_frame]
  decide

/-- Claim C1 (amended): for every call to `WriteVideoSample`,
parameter-set units (zero timestamp and duration) and picture units
(shared timestamp, nominal duration) are delivered to exactly the
registered sessions holding a video track, regardless of their
connection or ICE state: every attempted write targets a session with
a video track, and every session with a video track receives every
parameter-set unit (timestamp and duration zero) and every picture
unit (nominal duration, shared current timestamp). -/
theorem writeVideoSample_delivers_by_track (m : ManagerState) (data : List Nat)
    (e : Nat) :
    (∀ w ∈ (WriteVideoSample m data e).2,
        ∃ p ∈ m.peers, p.id = w.peerId ∧ p.hasVideoTrack = true) ∧
      (∀ p ∈ m.peers, p.hasVideoTrack = true →
        (∀ u ∈ (partitionNALUnits (parseLoop data 0)).1,
            ({ peerId := p.id, sample := ⟨u, 0, 0⟩ } : Write)
              ∈ (WriteVideoSample m data e).2) ∧
          (∀ u ∈ (partitionNALUnits (parseLoop data 0)).2,
            ({ peerId := p.id,
               sample := ⟨u, frameDurationNs,
                 (advanceClock m.clock e).videoTimestamp⟩ } : Write)
              ∈ (WriteVideoSample m data e).2)) := by
  by_cases h0 : data.length = 0
  · have hdata : data = [] := List.eq_nil_of_length_eq_zero h0
    subst hdata
    have hw : (WriteVideoSample m [] e).2 = [] := rfl
    rw [hw]
    have hloop : parseLoop [] 0 = [] := parseLoop_stop (by simp)
    rw [hloop]
    simp [partitionNALUnits]
  · by_cases h1 : parseLoop data 0 = []
    · rw [WriteVideoSample_writes_empty m data e h1, h1]
      simp [partitionNALUnits]
    · rw [WriteVideoSample_writes m data e h0 h1]
      constructor
      · intro w hw
        rcases List.mem_append.mp hw with hw1 | hw1
        all_goals {
          obtain ⟨p, hp, hwp⟩ := List.mem_flatMap.mp hw1
          by_cases htr : p.hasVideoTrack = true
          · rw [if_pos htr] at hwp
            obtain ⟨u, -, rfl⟩ := List.mem_map.mp hwp
            exact ⟨p, hp, rfl, htr⟩
          · rw [if_neg htr] at hwp
            simp at hwp
        }
      · intro p hp htr
        constructor
        · intro u hu
          refine List.mem_append.mpr (Or.inl ?_)
          refine List.mem_flatMap.mpr ⟨p, hp, ?_⟩
          rw [if_pos htr]
          exact List.mem_map.mpr ⟨u, hu, rfl⟩
        · intro u hu
          refine List.mem_append.mpr (Or.inr ?_)
          refine List.mem_flatMap.mpr ⟨p, hp, ?_⟩
          rw [if_pos htr]
          exact List.mem_map.mpr ⟨u, hu, rfl⟩

/-- Claim C1 (amended, witness): the delivery theorem applied to the
one-peer manager whose session is in connection state `new` and ICE
state `new`: the picture write reaches it because it holds a video
track. -/
theorem writeVideoSample_delivers_by_track_witness :
    ({ peerId := "p1", sample := ⟨[65], frameDurationNs, 3000⟩ } : Write)
      ∈ (WriteVideoSample mgrNew [0, 0, 0, 1, 65] 0).2 := by
  have h := ((writeVideoSample_delivers_by_track mgrNew [0, 0, 0, 1, 65] 0).2
    peerNew (by decide) rfl).2 [65] (by rw [parseLoop_single_frame]; decide)
  have hts : (advanceClock mgrNew.clock 0).videoTimestamp = 3000 := by decide
  rw [hts] at h
  exact h

/-- Every write produced by one fan-out loop carries one of the loop's
units, the loop's duration and the loop's timestamp. -/
lemma fanOut_mem_sample {peers : List Peer} {units : List (List Nat)}
    {durationNs ts : Nat} {w : Write} (hw : w ∈ fanOut peers units durationNs ts) :
    w.sample.data ∈ units ∧ w.sample.durationNs = durationNs ∧
      w.sample.packetTimestamp = ts := by
  obtain ⟨p, -, hwp⟩ := List.mem_flatMap.mp hw
  by_cases htr : p.hasVideoTrack = true
  · rw [if_pos htr] at hwp
    obtain ⟨u, hu, rfl⟩ := List.mem_map.mp hwp
    exact ⟨hu, rfl, rfl⟩
  · rw [if_neg htr] at hwp
    simp at hwp

/-- Claim C3: for one `WriteVideoSample` call and any given peer id,
the writes delivered to that id split as the parameter-set writes
(duration and timestamp zero) followed by the picture writes, all
picture writes carrying the one shared current timestamp; and the
presentation clock of the returned state is the input clock advanced
exactly once. -/
theorem writeVideoSample_per_peer_order (m : ManagerState) (data : List Nat)
    (e : Nat) (pid : String) (h0 : data.length ≠ 0) :
    ∃ w1 w2 : List Write,
      ((WriteVideoSample m data e).2.filter (fun w => w.peerId == pid))
          = w1 ++ w2 ∧
        (∀ w ∈ w1, w.sample.data ∈ (partitionNALUnits (parseLoop data 0)).1 ∧
          w.sample.durationNs = 0 ∧ w.sample.packetTimestamp = 0) ∧
        (∀ w ∈ w2, w.sample.data ∈ (partitionNALUnits (parseLoop data 0)).2 ∧
          w.sample.durationNs = frameDurationNs ∧
          w.sample.packetTimestamp = (advanceClock m.clock e).videoTimestamp) ∧
        (WriteVideoSample m data e).1.clock = advanceClock m.clock e := by
  have hclock : (WriteVideoSample m data e).1.clock = advanceClock m.clock e := by
    rw [WriteVideoSample_state m data e h0]
    show advanceClock (serviceSnapshot m data).clock e = advanceClock m.clock e
    rw [serviceSnapshot_clock]
  by_cases h1 : parseLoop data 0 = []
  · refine ⟨[], [], ?_, by simp, by simp, hclock⟩
    rw [WriteVideoSample_writes_empty m data e h1]
    simp
  · refine ⟨(fanOut m.peers (partitionNALUnits (parseLoop data 0)).1 0 0).filter
        (fun w => w.peerId == pid),
      (fanOut m.peers (partitionNALUnits (parseLoop data 0)).2 frameDurationNs
          (advanceClock m.clock e).videoTimestamp).filter
        (fun w => w.peerId == pid), ?_, ?_, ?_, hclock⟩
    · rw [WriteVideoSample_writes m data e h0 h1, List.filter_append]
    · intro w hw
      exact fanOut_mem_sample (List.mem_of_mem_filter hw)
    · intro w hw
      exact fanOut_mem_sample (List.mem_of_mem_filter hw)

/-- Claim C3 (witness): the per-peer ordering theorem applied to the
one-peer manager and a payload carrying one SPS unit (`0x67`) and one
IDR picture unit (`0x65`). -/
theorem writeVideoSample_per_peer_order_witness :
    ([0, 0, 0, 1, 0x67, 0, 0, 0, 1, 0x65] : List Nat).length ≠ 0 ∧
      ∃ w1 w2 : List Write,
        ((WriteVideoSample mgrNew [0, 0, 0, 1, 0x67, 0, 0, 0, 1, 0x65] 0).2.filter
              (fun w => w.peerId == "p1"))
            = w1 ++ w2 ∧
          (∀ w ∈ w1,
            w.sample.data
                ∈ (partitionNALUnits
                    (parseLoop [0, 0, 0, 1, 0x67, 0, 0, 0, 1, 0x65] 0)).1 ∧
              w.sample.durationNs = 0 ∧ w.sample.packetTimestamp = 0) ∧
          (∀ w ∈ w2,
            w.sample.data
                ∈ (partitionNALUnits
                    (parseLoop [0, 0, 0, 1, 0x67, 0, 0, 0, 1, 0x65] 0)).2 ∧
              w.sample.durationNs = frameDurationNs ∧
              w.sample.packetTimestamp
                = (advanceClock mgrNew.clock 0).videoTimestamp) ∧
          (WriteVideoSample mgrNew [0, 0, 0, 1, 0x67, 0, 0, 0, 1, 0x65] 0).1.clock
            = advanceClock mgrNew.clock 0 :=
  ⟨by decide,
    writeVideoSample_per_peer_order mgrNew [0, 0, 0, 1, 0x67, 0, 0, 0, 1, 0x65] 0
      "p1" (by decide)⟩

/-- A manager with no registered peers, a pending snapshot request and
an empty snapshot-result slot. -/
def mgrSnap : ManagerState :=
  { peers := [], clock := ClockState.init,
    snapshotRequestPending := true, snapshotData := none }

/-- Claim C8 (counterexample): a `WriteVideoSample` call with zero
registered peers is not free of observable side effects: on `mgrSnap`
with the payload `00 00 00 01 41` and 100 ms elapsed, the call advances
the Presentation Clock, consumes the pending snapshot request and
fills the snapshot-result slot. -/
theorem writeVideoSample_zero_peers_side_effects :
    mgrSnap.peers = [] ∧
      (WriteVideoSample mgrSnap [0, 0, 0, 1, 65] (10 ^ 8)).1.clock.videoTimestamp
          ≠ mgrSnap.clock.videoTimestamp ∧
      (WriteVideoSample mgrSnap [0, 0, 0, 1, 65] (10 ^ 8)).1.snapshotRequestPending
          ≠ mgrSnap.snapshotRequestPending ∧
      (WriteVideoSample mgrSnap [0, 0, 0, 1, 65] (10 ^ 8)).1.snapshotData
          ≠ mgrSnap.snapshotData := by
  rw [WriteVideoSample_state mgrSnap [0, 0, 0, 1, 65] (10 ^ 8) (by decide)]
  refine ⟨rfl, ?_, ?_, ?_⟩ <;> decide

/-- Claim C8 (amended): a `WriteVideoSample` call with zero registered
peers returns without error and writes no sample, but it is not free
of side effects: for a non-empty payload it services a pending
snapshot request (copying the frame into the empty result slot) and
advances the Presentation Clock once; the returned state is exactly
that. -/
theorem writeVideoSample_zero_peers_effect (m : ManagerState) (data : List Nat)
    (e : Nat) (h : m.peers = []) :
    (WriteVideoSample m data e).2 = [] ∧
      (WriteVideoSample m data e).1
        = if data.length = 0 then m
          else { serviceSnapshot m data with
                 clock := advanceClock (serviceSnapshot m data).clock e } := by
  constructor
  · by_cases h1 : parseLoop data 0 = []
    · exact WriteVideoSample_writes_empty m data e h1
    · by_cases h0 : data.length = 0
      · unfold WriteVideoSample
        rw [if_pos h0]
      · rw [WriteVideoSample_writes m data e h0 h1, h]
        simp [fanOut]
  · by_cases h0 : data.length = 0
    · rw [if_pos h0]
      unfold WriteVideoSample
      rw [if_pos h0]
    · rw [if_neg h0]
      exact WriteVideoSample_state m data e h0

/-- Claim C8 (amended, witness): the zero-peer effect theorem applied
to `mgrSnap` with the payload `00 00 00 01 41` and 100 ms elapsed. -/
theorem writeVideoSample_zero_peers_effect_witness :
    mgrSnap.peers = [] ∧
      ((WriteVideoSample mgrSnap [0, 0, 0, 1, 65] (10 ^ 8)).2 = [] ∧
        (WriteVideoSample mgrSnap [0, 0, 0, 1, 65] (10 ^ 8)).1
          = if ([0, 0, 0, 1, 65] : List Nat).length = 0 then mgrSnap
            else { serviceSnapshot mgrSnap [0, 0, 0, 1, 65] with
                   clock := advanceClock
                     (serviceSnapshot mgrSnap [0, 0, 0, 1, 65]).clock (10 ^ 8) } ) :=
  ⟨rfl, writeVideoSample_zero_peers_effect mgrSnap [0, 0, 0, 1, 65] (10 ^ 8) rfl⟩

/-! ### Ingestion supervisor (`rtsp.Client`)

The public state machine of the RTSP ingestion client: `Start` fails
when a session is already active, otherwise marks the client running
and launches the supervised loop in the background; `Stop` kills the
current subprocess (irrelevant to the flag logic) and marks
not-running, and is a no-op when not running; `IsRunning` reads the
flag. -/

structure Client where
  isRunning : Bool
deriving Repr, DecidableEq

/-- `rtsp.NewClient` starts with a zero-valued `isRunning` flag. -/
def Client.new : Client := { isRunning := false }

/-- `Client.Start`: error when already running, else set the flag and
return `nil` (the supervised loop is launched asynchronously). -/
def ClientStart (c : Client) : Client × Option String :=
  if c.isRunning then (c, some "RTSP client is already running")
  else ({ isRunning := true }, none)

/-- `Client.Stop`: no-op when not running, else clear the flag. -/
def ClientStop (c : Client) : Client × Option String :=
  if ¬ c.isRunning then (c, none)
  else ({ isRunning := false }, none)

def ClientIsRunning (c : Client) : Bool := c.isRunning

/-- The synchronous API calls of the supervisor. -/
inductive ClientOp
  | start
  | stop
  | isRunning
deriving Repr, DecidableEq

def applyClientOp (c : Client) : ClientOp → Client
  | ClientOp.start => (ClientStart c).1
  | ClientOp.stop => (ClientStop c).1
  | ClientOp.isRunning => c

lemma ClientStart_already_running {c : Client} (h : c.isRunning = true) :
    (ClientStart c).2 = some "RTSP client is already running" := by
  unfold ClientStart
  rw [if_pos h]

lemma applyClientOp_keeps_running {c : Client} (h : c.isRunning = true)
    {op : ClientOp} (hop : op ≠ ClientOp.stop) :
    (applyClientOp c op).isRunning = true := by
  cases op with
  | start =>
    unfold applyClientOp ClientStart
    rw [h]
    exact h
  | stop => exact absurd rfl hop
  | isRunning => exact h

/-- Claim C7: once `Start()` has been called, any further sequence of
API calls not containing `Stop()` leaves the client marked running, so
a second `Start()` call returns the `AlreadyRunning` error. -/
theorem client_second_start_fails (c0 : Client) (ops : List ClientOp)
    (hops : ClientOp.stop ∉ ops) :
    (ClientStart (List.foldl applyClientOp (ClientStart c0).1 ops)).2
      = some "RTSP client is already running" := by
  have hrun : ∀ (c : Client) (l : List ClientOp), c.isRunning = true →
      ClientOp.stop ∉ l → (List.foldl applyClientOp c l).isRunning = true := by
    intro c l
    induction l generalizing c with
    | nil => intro h _; exact h
    | cons op rest ih =>
      intro h hmem
      rw [List.foldl_cons]
      exact ih _ (applyClientOp_keeps_running h (fun hc => hmem (hc ▸ List.mem_cons_self _ _)))
        (fun hc => hmem (List.mem_cons_of_mem _ hc))
  have h1 : (ClientStart c0).1.isRunning = true := by
    unfold ClientStart
    by_cases h : c0.isRunning <;> simp [h]
  have h2 := hrun _ ops h1 hops
  exact ClientStart_already_running h2

/-- Claim C7 (witness): starting a fresh client and immediately
starting again (no calls in between) fails with `AlreadyRunning`. -/
theorem client_second_start_fails_witness :
    ClientOp.stop ∉ ([] : List ClientOp) ∧
      (ClientStart (List.foldl applyClientOp (ClientStart Client.new).1 [])).2
        = some "RTSP client is already running" :=
  ⟨by decide, client_second_start_fails Client.new [] (by decide)⟩

/-! ### Source router (`source.Manager`)

`StartSource` acquires `m.mu` at entry and releases it explicitly on
each return path — except the two `ConfigurationError` paths, which
return while still holding the lock.  The model therefore tracks the
mutex explicitly: `muLocked` records whether `m.mu` is held after the
call, and the read-only queries (which take the same mutex) block —
modelled as `none` — while it is held.  The outcome of
`rtmp.RTMPClient.Start` depends on the external process environment
and enters as the `rtmpStartErr` parameter; `rtsp.Client.Start` cannot
fail when the running check has just returned false (its only error is
`AlreadyRunning`). -/

structure SourceManager where
  rtmpURL : String
  rtspURL : String
  rtmpClientExists : Bool
  rtspClientExists : Bool
  rtmpClientRunning : Bool
  rtspClientRunning : Bool
  currentSource : String
  muLocked : Bool
deriving Repr, DecidableEq

/-- `normalize` from `source/manager.go`. -/
def normalize (s : String) : String :=
  if s = "RTMP" ∨ s = "rtmp" ∨ s = "Rtmp" then "rtmp"
  else if s = "RTSP" ∨ s = "rtsp" ∨ s = "Rtsp" then "rtsp"
  else s

/-- `Manager.StartSource`. -/
def StartSource (m0 : SourceManager) (sourceType : String)
    (rtmpStartErr : Option String) : SourceManager × Option String :=
  let m := { m0 with muLocked := true }
  if normalize sourceType = "rtmp" then
    if ¬ m.rtmpClientExists ∧ m.rtmpURL = "" then
      (m, some "RTMP source not configured")
    else
      let m := { m with rtmpClientExists := true }
      if ¬ m.rtmpClientRunning then
        match rtmpStartErr with
        | some err =>
          ({ m with muLocked := false },
            some ("failed to start RTMP client: " ++ err))
        | none =>
          ({ m with
              rtmpClientRunning := true
              currentSource := "rtmp"
              muLocked := false }, none)
      else
        ({ m with
            currentSource := "rtmp"
            muLocked := false }, none)
  else if normalize sourceType = "rtsp" then
    if ¬ m.rtspClientExists ∧ m.rtspURL = "" then
      (m, some "RTSP source not configured")
    else
      let m := { m with rtspClientExists := true }
      if ¬ m.rtspClientRunning then
        ({ m with
            rtspClientRunning := true
            currentSource := "rtsp"
            muLocked := false }, none)
      else
        ({ m with
            currentSource := "rtsp"
            muLocked := false }, none)
  else
    ({ m with muLocked := false }, some ("unknown source type: " ++ sourceType))

/-- `Manager.GetCurrentSource`: takes `m.mu` for reading; blocks —
`none` — while the write lock is held. -/
def GetCurrentSource (m : SourceManager) : Option String :=
  if m.muLocked then none else some m.currentSource

/-- A router configured with an RTMP URL only (`InitializeSources`
with an empty RTSP URL creates no RTSP client). -/
def mgrRtmpOnly : SourceManager :=
  { rtmpURL := "rtmp://camera/stream", rtspURL := "",
    rtmpClientExists := true, rtspClientExists := false,
    rtmpClientRunning := false, rtspClientRunning := false,
    currentSource := "", muLocked := false }

/-- Claim C6 (code bug): `StartSource("rtsp")` with no RTSP URL
configured returns the `ConfigurationError` and leaves the
active-source field unchanged, as the claim states — but this return
path never releases `m.mu` (every other path unlocks explicitly), so
the subsequent `GetCurrentSource()` blocks forever instead of
returning the previous value. -/
theorem startSource_unconfigured_leaks_lock :
    (StartSource mgrRtmpOnly "rtsp" none).2 = some "RTSP source not configured" ∧
      (StartSource mgrRtmpOnly "rtsp" none).1.currentSource
        = mgrRtmpOnly.currentSource ∧
      GetCurrentSource mgrRtmpOnly = some "" ∧
      (StartSource mgrRtmpOnly "rtsp" none).1.muLocked = true ∧
      GetCurrentSource (StartSource mgrRtmpOnly "rtsp" none).1 = none := by
  decide

/-! ### Snapshot service (`Manager.CaptureSnapshot`)

`CaptureSnapshot` waits on the snapshot-data slot with a 5-second
timeout.  Real time is abstracted into the `arrival` parameter: `none`
when no frame is placed into the slot within the bound, `some frame`
otherwise (`WriteVideoSample` only ever places non-empty payload
copies there).  `convertH264ToJPEG` shells out to an external `ffmpeg`
binary: its availability and the outcome of the conversion command
enter as parameters, as do the bytes of the placeholder JPEG produced
by the `image/jpeg` library (`createPlaceholderJPEG`).  Temporary-file
system calls are assumed to succeed. -/

/-- `base64.StdEncoding` alphabet. -/
def base64Table : List Char :=
  "ABCDEFGHIJKLMNOPQRSTUVWXYZabcdefghijklmnopqrstuvwxyz0123456789+/".toList

def base64Char (n : Nat) : Char := base64Table.getD n '?'

/-- `base64.StdEncoding.EncodeToString`: 3-byte groups become 4
characters; trailing groups are padded with `=`. -/
def base64Encode : List Nat → List Char
  | [] => []
  | [b1] => [base64Char (b1 / 4), base64Char (b1 % 4 * 16), '=', '=']
  | [b1, b2] =>
    [base64Char (b1 / 4), base64Char (b1 % 4 * 16 + b2 / 16),
      base64Char (b2 % 16 * 4), '=']
  | b1 :: b2 :: b3 :: rest =>
    base64Char (b1 / 4) :: base64Char (b1 % 4 * 16 + b2 / 16)
      :: base64Char (b2 % 16 * 4 + b3 / 64) :: base64Char (b3 % 64)
      :: base64Encode rest

def base64EncodeString (bs : List Nat) : String := String.mk (base64Encode bs)

/-- `Manager.convertH264ToJPEG`: a missing `ffmpeg` binary or a failed
conversion command falls back to the placeholder JPEG instead of
erroring. -/
def convertH264ToJPEG (ffmpegAvailable : Bool) (ffmpegOutcome : Option (List Nat))
    (placeholder : List Nat) (h264Data : List Nat) : Except String (List Nat) :=
  if ¬ ffmpegAvailable then Except.ok placeholder
  else
    match ffmpegOutcome with
    | none => Except.ok placeholder
    | some jpegData => Except.ok jpegData

/-- `Manager.CaptureSnapshot`. -/
def CaptureSnapshot (arrival : Option (List Nat)) (ffmpegAvailable : Bool)
    (ffmpegOutcome : Option (List Nat)) (placeholder : List Nat) :
    Except String String :=
  match arrival with
  | none => Except.error "timeout waiting for video frame"
  | some frameData =>
    if frameData.length = 0 then Except.error "empty frame received"
    else
      match convertH264ToJPEG ffmpegAvailable ffmpegOutcome placeholder frameData with
      | Except.error e => Except.error ("failed to convert H.264 to JPEG: " ++ e)
      | Except.ok jpegData =>
        Except.ok ("data:image/jpeg;base64," ++ base64EncodeString jpegData)

/-- Claim C9: `CaptureSnapshot` fails with the timeout error when no
frame reaches the result slot within the bound; otherwise it returns a
`data:image/jpeg;base64,…` string, encoding the converted JPEG when
the external encoder is available and succeeds and the fixed
placeholder JPEG when the encoder is unavailable or its command fails
— never an error. -/
theorem captureSnapshot_result (ffmpegAvailable : Bool)
    (ffmpegOutcome : Option (List Nat)) (placeholder : List Nat) :
    CaptureSnapshot none ffmpegAvailable ffmpegOutcome placeholder
        = Except.error "timeout waiting for video frame" ∧
      ∀ frame : List Nat, frame ≠ [] →
        CaptureSnapshot (some frame) ffmpegAvailable ffmpegOutcome placeholder
          = Except.ok ("data:image/jpeg;base64,"
              ++ base64EncodeString
                (if ffmpegAvailable = true then ffmpegOutcome.getD placeholder
                 else placeholder)) := by
  refine ⟨rfl, fun frame hframe => ?_⟩
  have hlen : ¬ frame.length = 0 := by simpa using hframe
  unfold CaptureSnapshot convertH264ToJPEG
  cases ffmpegAvailable with
  | false => simp [hlen]
  | true =>
    cases ffmpegOutcome with
    | none => simp [hlen]
    | some jpegData => simp [hlen]

/-- Claim C9 (witness): with a one-byte frame, no `ffmpeg` binary and
placeholder bytes `FF D8`, the call substitutes the placeholder and
returns its data URI; with no frame it times out. -/
theorem captureSnapshot_result_witness :
    CaptureSnapshot none false none [255, 216]
        = Except.error "timeout waiting for video frame" ∧
      ([1] : List Nat) ≠ [] ∧
      CaptureSnapshot (some [1]) false none [255, 216]
        = Except.ok ("data:image/jpeg;base64,"
            ++ base64EncodeString
              (if (false : Bool) = true then (none : Option (List Nat)).getD [255, 216]
               else [255, 216])) :=
  ⟨(captureSnapshot_result false none [255, 216]).1, by decide,
    (captureSnapshot_result false none [255, 216]).2 [1] (by decide)⟩

/-! ### Frame-framer round trip (start-code-delimited units)

A start-code-delimited unit is a 4-byte (`00 00 00 01`) or 3-byte
(`00 00 01`) start code followed by a payload.  `WFUnits` states that
the input really is such a concatenation: every payload is non-empty,
and no start-code pattern occurs strictly inside a unit's span at any
position the scanner's second search can reach (positions 4 up to the
unit length, relative to that unit's suffix of the stream). -/

/-- One start-code-delimited unit: `true` for the 4-byte code. -/
def unitBytes (u : Bool × List Nat) : List Nat :=
  (if u.1 then [0, 0, 0, 1] else [0, 0, 1]) ++ u.2

def streamBytes (us : List (Bool × List Nat)) : List Nat :=
  (us.map unitBytes).join

/-- A start code (of either length) begins at position `i`. -/
def scAt (d : List Nat) (i : Nat) : Prop := sc4At d i ∨ sc3At d i

instance (d : List Nat) (i : Nat) : Decidable (scAt d i) := by
  unfold scAt
  infer_instance

def WFUnits : List (Bool × List Nat) → Prop
  | [] => True
  | u :: rest =>
    u.2 ≠ [] ∧
      (∀ i < (unitBytes u).length, 4 ≤ i → ¬ scAt (streamBytes (u :: rest)) i) ∧
      WFUnits rest

instance instDecWFUnits : (us : List (Bool × List Nat)) → Decidable (WFUnits us)
  | [] => Decidable.isTrue trivial
  | u :: rest =>
    have : Decidable (WFUnits rest) := instDecWFUnits rest
    by unfold WFUnits; infer_instance

lemma streamBytes_cons (u : Bool × List Nat) (us : List (Bool × List Nat)) :
    streamBytes (u :: us) = unitBytes u ++ streamBytes us := by
  simp [streamBytes]

lemma unitBytes_length_ge {u : Bool × List Nat} (h : u.2 ≠ []) :
    4 ≤ (unitBytes u).length := by
  have : 1 ≤ u.2.length := List.length_pos.mpr h
  cases hb : u.1 <;> simp [unitBytes, hb] <;> omega

lemma streamBytes_length_ge {us : List (Bool × List Nat)} (h : WFUnits us)
    (hne : us ≠ []) : 4 ≤ (streamBytes us).length := by
  match us with
  | [] => exact absurd rfl hne
  | u :: rest =>
    obtain ⟨hp, -, -⟩ := h
    rw [streamBytes_cons]
    have := unitBytes_length_ge hp
    simp only [List.length_append]
    omega

/-! Branch equations for the scanner driver. -/

lemma scanTokens_emit {b : List Nat} {cs : List (List Nat)} {adv : Nat}
    {t : List Nat} (h : splitH264Frames b cs.isEmpty = (adv, some t)) :
    scanTokens b cs = t :: scanTokens (b.drop adv) cs := by
  rw [scanTokens]
  split
  · next adv' t' hr =>
      rw [h] at hr
      simp only [Prod.mk.injEq, Option.some.injEq] at hr
      rw [hr.1, hr.2]
  · next adv' hr =>
      rw [h] at hr
      simp at hr

lemma scanTokens_stop {b : List Nat} {adv : Nat}
    (h : splitH264Frames b true = (adv, none)) :
    scanTokens b [] = [] := by
  rw [scanTokens]
  split
  · next adv' t' hr =>
      rw [show (([] : List (List Nat)).isEmpty) = true from rfl, h] at hr
      simp at hr
  · next adv' hr => rfl

lemma scanTokens_read {b c : List Nat} {rest : List (List Nat)} {adv : Nat}
    (h : splitH264Frames b (c :: rest).isEmpty = (adv, none)) :
    scanTokens b (c :: rest) = scanTokens (b.drop adv ++ c) rest := by
  rw [scanTokens]
  split
  · next adv' t' hr =>
      rw [h] at hr
      simp at hr
  · next adv' hr =>
      rw [h] at hr
      simp only [Prod.mk.injEq] at hr
      rw [hr.1]

/-! Transfer of start-code matches along prefixes and suffixes. -/

lemma sc4At_mono_append {b t S : List Nat} {i : Nat} (hS : b ++ t = S)
    (h : sc4At b i) : sc4At S i := by
  obtain ⟨hl, h0, h1, h2, h3⟩ := h
  subst hS
  refine ⟨by simp; omega, ?_, ?_, ?_, ?_⟩ <;>
    rw [List.getD_append _ _ _ _ (by omega)] <;> assumption

lemma sc3At_mono_append {b t S : List Nat} {i : Nat} (hS : b ++ t = S)
    (h : sc3At b i) : sc3At S i := by
  obtain ⟨hl, h0, h1, h2⟩ := h
  subst hS
  refine ⟨by simp; omega, ?_, ?_, ?_⟩ <;>
    rw [List.getD_append _ _ _ _ (by omega)] <;> assumption

lemma sc4At_of_superlist {b t S : List Nat} {i : Nat} (hS : b ++ t = S)
    (h : sc4At S i) (hlen : i + 4 ≤ b.length) : sc4At b i := by
  obtain ⟨hl, h0, h1, h2, h3⟩ := h
  subst hS
  rw [List.getD_append _ _ _ _ (by omega)] at h0
  rw [List.getD_append _ _ _ _ (by omega)] at h1
  rw [List.getD_append _ _ _ _ (by omega)] at h2
  rw [List.getD_append _ _ _ _ (by omega)] at h3
  exact ⟨hlen, h0, h1, h2, h3⟩

lemma sc3At_of_superlist {b t S : List Nat} {i : Nat} (hS : b ++ t = S)
    (h : sc3At S i) (hlen : i + 3 ≤ b.length) : sc3At b i := by
  obtain ⟨hl, h0, h1, h2⟩ := h
  subst hS
  rw [List.getD_append _ _ _ _ (by omega)] at h0
  rw [List.getD_append _ _ _ _ (by omega)] at h1
  rw [List.getD_append _ _ _ _ (by omega)] at h2
  exact ⟨hlen, h0, h1, h2⟩

lemma scAt_mono_append {b t S : List Nat} {i : Nat} (hS : b ++ t = S)
    (h : scAt b i) : scAt S i :=
  h.elim (fun h4 => Or.inl (sc4At_mono_append hS h4))
    (fun h3 => Or.inr (sc3At_mono_append hS h3))

/-- A start code at the head of a suffix appears at the shifted
position of the full list. -/
lemma scAt_append_shift (l₁ : List Nat) {l₂ : List Nat} {i : Nat} (h : scAt l₂ i) :
    scAt (l₁ ++ l₂) (l₁.length + i) := by
  rcases h with ⟨hl, h0, h1, h2, h3⟩ | ⟨hl, h0, h1, h2⟩
  · refine Or.inl ⟨by simp; omega, ?_, ?_, ?_, ?_⟩
    · rw [List.getD_append_right _ _ _ _ (by omega)]
      simpa using h0
    · rw [show l₁.length + i + 1 = l₁.length + (i + 1) by omega,
        List.getD_append_right _ _ _ _ (by omega)]
      simpa using h1
    · rw [show l₁.length + i + 2 = l₁.length + (i + 2) by omega,
        List.getD_append_right _ _ _ _ (by omega)]
      simpa using h2
    · rw [show l₁.length + i + 3 = l₁.length + (i + 3) by omega,
        List.getD_append_right _ _ _ _ (by omega)]
      simpa using h3
  · refine Or.inr ⟨by simp; omega, ?_, ?_, ?_⟩
    · rw [List.getD_append_right _ _ _ _ (by omega)]
      simpa using h0
    · rw [show l₁.length + i + 1 = l₁.length + (i + 1) by omega,
        List.getD_append_right _ _ _ _ (by omega)]
      simpa using h1
    · rw [show l₁.length + i + 2 = l₁.length + (i + 2) by omega,
        List.getD_append_right _ _ _ _ (by omega)]
      simpa using h2

/-- Every unit's own start code matches at the head of its stream. -/
lemma scAt_streamBytes_zero {us : List (Bool × List Nat)} (hne : us ≠ []) :
    scAt (streamBytes us) 0 := by
  match us with
  | [] => exact absurd rfl hne
  | (four, payload) :: rest =>
    rw [streamBytes_cons]
    cases four with
    | true =>
      refine Or.inl ⟨?_, ?_, ?_, ?_, ?_⟩ <;>
        simp [unitBytes, List.getD, List.getElem?_append]
    | false =>
      refine Or.inr ⟨?_, ?_, ?_, ?_⟩ <;>
        simp [unitBytes, List.getD, List.getElem?_append]

lemma scAt_of_superlist {b t S : List Nat} {i : Nat} (hS : b ++ t = S)
    (h : scAt S i) (hlen : i + 4 ≤ b.length) : scAt b i :=
  h.elim (fun h4 => Or.inl (sc4At_of_superlist hS h4 hlen))
    (fun h3 => Or.inr (sc3At_of_superlist hS h3 (by omega)))

/-- `find?` over `range'` returns the first index satisfying the
predicate. -/
lemma find?_range'_first {p : Nat → Bool} {lo n j : Nat} (hlo : lo ≤ j)
    (hup : j < lo + n) (hp : p j = true)
    (hmin : ∀ i, lo ≤ i → i < j → p i = false) :
    (List.range' lo n).find? p = some j := by
  induction n generalizing lo with
  | zero => omega
  | succ n ih =>
    rw [List.range'_succ, List.find?_cons]
    by_cases hj : lo = j
    · subst hj
      rw [hp]
    · rw [hmin lo (le_refl lo) (by omega)]
      exact ih (by omega) (by omega) (fun i h1 h2 => hmin i (by omega) h2)

lemma findSCfrom_short {b : List Nat} (h : b.length ≤ 3) (lo : Nat) :
    findSCfrom b lo = none := by
  unfold findSCfrom
  rw [show b.length - 3 - lo = 0 by omega]
  rfl

/-- A buffer that starts a well-formed stream and holds at least 4
bytes reports its leading start code at position 0. -/
lemma findSCfrom_zero_at_head {us : List (Bool × List Nat)} {b t : List Nat}
    (hne : us ≠ []) (hS : b ++ t = streamBytes us) (hlen : 4 ≤ b.length) :
    findSCfrom b 0 = some 0 := by
  have hsc : scAt b 0 :=
    scAt_of_superlist hS (scAt_streamBytes_zero hne) (by omega)
  unfold findSCfrom
  exact find?_range'_first (Nat.zero_le 0) (by omega) (scFound_iff.mpr hsc)
    (by omega)

/-- Second search, positive case: when the whole next start code fits
in the buffer, the search from position 4 finds exactly the first
unit's length. -/
lemma findSCfrom_second_some {u : Bool × List Nat} {rest : List (Bool × List Nat)}
    {b t : List Nat} (hwf : WFUnits (u :: rest))
    (hS : b ++ t = streamBytes (u :: rest))
    (hL : (unitBytes u).length + 4 ≤ b.length) :
    findSCfrom b 4 = some (unitBytes u).length := by
  obtain ⟨hp, hins, hwrest⟩ := hwf
  have hL4 := unitBytes_length_ge hp
  have hrest : rest ≠ [] := by
    intro hc
    subst hc
    have hlen := congrArg List.length hS
    rw [streamBytes_cons] at hlen
    simp only [streamBytes, List.map_nil, List.join_nil, List.append_nil,
      List.length_append] at hlen
    omega
  have hscL : scAt (streamBytes (u :: rest)) (unitBytes u).length := by
    have h0 := scAt_streamBytes_zero hrest
    have := scAt_append_shift (unitBytes u) h0
    rw [← streamBytes_cons] at this
    simpa using this
  have hscb : scAt b (unitBytes u).length := scAt_of_superlist hS hscL hL
  unfold findSCfrom
  refine find?_range'_first (by omega) (by omega) (scFound_iff.mpr hscb) ?_
  intro i hi4 hiL
  by_contra hc
  rw [Bool.not_eq_false] at hc
  exact hins i hiL hi4 (scAt_mono_append hS (scFound_iff.mp hc))

/-- Second search, negative case: when the buffer ends before the next
start code fully fits, the search from position 4 finds nothing. -/
lemma findSCfrom_second_none {u : Bool × List Nat} {rest : List (Bool × List Nat)}
    {b t : List Nat} (hwf : WFUnits (u :: rest))
    (hS : b ++ t = streamBytes (u :: rest))
    (hL : b.length < (unitBytes u).length + 4) :
    findSCfrom b 4 = none := by
  obtain ⟨hp, hins, hwrest⟩ := hwf
  unfold findSCfrom
  rw [List.find?_eq_none]
  intro i hi
  obtain ⟨hi4, hiup⟩ := mem_range'_iff.mp hi
  intro hc
  have hsc := scFound_iff.mp hc
  have hibound : i + 4 ≤ b.length ∨ i + 3 ≤ b.length := by
    rcases hsc with h4 | h3
    · exact Or.inl h4.1
    · exact Or.inr h3.1
  have hiL : i < (unitBytes u).length := by omega
  exact hins i hiL hi4 (scAt_mono_append hS hsc)

lemma chunksBytes_cons (c : List Nat) (cs : List (List Nat)) :
    chunksBytes (c :: cs) = c.length + chunksBytes cs := by
  simp [chunksBytes]

/-- On a buffer holding the whole first unit and the next start code,
the split function emits exactly the first unit (start code included)
and advances past it. -/
lemma split_prefix_emit {u : Bool × List Nat} {rest : List (Bool × List Nat)}
    {b t : List Nat} (hwf : WFUnits (u :: rest))
    (hS : b ++ t = streamBytes (u :: rest))
    (hL : (unitBytes u).length + 4 ≤ b.length) (e : Bool) :
    splitH264Frames b e = ((unitBytes u).length, some (unitBytes u)) := by
  have hu4 : 4 ≤ (unitBytes u).length := unitBytes_length_ge hwf.1
  have h0 : ¬(e = true ∧ b.length = 0) := by
    rintro ⟨-, hb⟩
    omega
  have hf := findSCfrom_zero_at_head (by simp) hS (by omega)
  have hg := findSCfrom_second_some hwf hS hL
  rw [splitH264Frames_midSC e hf (by simpa using hg) h0]
  congr 1
  rw [List.drop_zero, Nat.sub_zero]
  have h1 : b.take (unitBytes u).length = (b ++ t).take (unitBytes u).length :=
    (List.take_append_of_le_length (by omega)).symm
  rw [h1, hS, streamBytes_cons, List.take_append_of_le_length (le_refl _),
    List.take_length]

/-- At end of stream, a buffer holding one final unit (and no room for
another start code) is emitted whole. -/
lemma split_prefix_final {u : Bool × List Nat} {rest : List (Bool × List Nat)}
    {b : List Nat} (hwf : WFUnits (u :: rest))
    (hb : b = streamBytes (u :: rest))
    (hL : b.length < (unitBytes u).length + 4) :
    rest = [] ∧ splitH264Frames b true = (b.length, some b) := by
  have hu4 : 4 ≤ (unitBytes u).length := unitBytes_length_ge hwf.1
  have hS : b ++ [] = streamBytes (u :: rest) := by simpa using hb
  have hblen := congrArg List.length hb
  rw [streamBytes_cons, List.length_append] at hblen
  have hrest : rest = [] := by
    match rest with
    | [] => rfl
    | v :: rest' =>
      exfalso
      have h4 := streamBytes_length_ge hwf.2.2 (by simp)
      omega
  refine ⟨hrest, ?_⟩
  have h0 : ¬(true = true ∧ b.length = 0) := by
    rintro ⟨-, hc⟩
    omega
  have hf := findSCfrom_zero_at_head (by simp) hS (by omega)
  have hg := findSCfrom_second_none hwf hS hL
  rw [splitH264Frames_lastSC true hf (by simpa using hg) h0]
  rw [if_pos rfl, List.drop_zero]

/-- Mid-stream a buffer too short to show the next start code produces
no token and requests more input. -/
lemma split_prefix_more {u : Bool × List Nat} {rest : List (Bool × List Nat)}
    {b t : List Nat} (hwf : WFUnits (u :: rest))
    (hS : b ++ t = streamBytes (u :: rest))
    (hL : b.length < (unitBytes u).length + 4) :
    splitH264Frames b false = (0, none) := by
  have h0 : ¬((false : Bool) = true ∧ b.length = 0) := by simp
  by_cases hb : 4 ≤ b.length
  · have hf := findSCfrom_zero_at_head (by simp) hS hb
    have hg := findSCfrom_second_none hwf hS hL
    rw [splitH264Frames_lastSC false hf (by simpa using hg) h0]
    simp
  · have hf := findSCfrom_short (b := b) (by omega) 0
    rw [splitH264Frames_noSC false hf h0]
    simp

/-- The scanner driver, fed a well-formed stream of start-code-
delimited units split into chunks of arbitrary sizes, emits exactly
the units (each with its start code). -/
lemma scanTokens_units_aux :
    ∀ (N : Nat) (us : List (Bool × List Nat)) (b : List Nat)
      (cs : List (List Nat)),
      2 * (b.length + chunksBytes cs) + cs.length ≤ N → WFUnits us →
      b ++ cs.join = streamBytes us →
      scanTokens b cs = us.map unitBytes := by
  intro N
  induction N with
  | zero =>
    intro us b cs hmu hwf hS
    have hb : b = [] :=
      List.eq_nil_of_length_eq_zero (by omega)
    have hcs : cs = [] :=
      List.eq_nil_of_length_eq_zero (by omega)
    subst hb
    subst hcs
    have hus : us = [] := by
      match us with
      | [] => rfl
      | u :: rest =>
        exfalso
        have h4 := streamBytes_length_ge hwf (by simp)
        have := congrArg List.length hS
        simp at this
        omega
    subst hus
    exact scanTokens_stop (show splitH264Frames [] true = (0, none) from rfl)
  | succ N ih =>
    intro us b cs hmu hwf hS
    match us with
    | [] =>
      have hS' : b ++ cs.join = [] := by simpa [streamBytes] using hS
      obtain ⟨hb, hj⟩ := List.append_eq_nil.mp hS'
      subst hb
      match cs with
      | [] =>
        exact scanTokens_stop (show splitH264Frames [] true = (0, none) from rfl)
      | c :: rest =>
        rw [scanTokens_read
          (show splitH264Frames [] (c :: rest).isEmpty = (0, none) from rfl)]
        refine ih [] (List.drop 0 [] ++ c) rest ?_ trivial ?_
        · rw [chunksBytes_cons] at hmu
          simp only [List.drop_nil, List.nil_append, List.length_nil,
            List.length_cons] at hmu ⊢
          omega
        · have hcj : c ++ rest.join = [] := by simpa using hj
          simpa [streamBytes] using hcj
    | u :: rest =>
      have hu4 : 4 ≤ (unitBytes u).length := unitBytes_length_ge hwf.1
      by_cases hL : (unitBytes u).length + 4 ≤ b.length
      · have hsplit := split_prefix_emit hwf hS hL (e := cs.isEmpty)
        rw [scanTokens_emit hsplit, List.map_cons]
        refine congrArg (List.cons (unitBytes u)) ?_
        refine ih rest (b.drop (unitBytes u).length) cs ?_ hwf.2.2 ?_
        · rw [List.length_drop]
          omega
        · have hdrop := congrArg (List.drop (unitBytes u).length) hS
          rw [List.drop_append_of_le_length (by omega), streamBytes_cons,
            List.drop_left] at hdrop
          exact hdrop
      · match cs with
        | [] =>
          have hb : b = streamBytes (u :: rest) := by simpa using hS
          obtain ⟨hrest, hsplit⟩ := split_prefix_final hwf hb (by omega)
          subst hrest
          rw [scanTokens_emit (show splitH264Frames b
            (([] : List (List Nat)).isEmpty) = (b.length, some b) from hsplit)]
          rw [List.drop_length,
            scanTokens_stop (show splitH264Frames [] true = (0, none) from rfl)]
          have hbu : b = unitBytes u := by
            rw [hb, streamBytes_cons]
            simp [streamBytes]
          rw [hbu, List.map_cons, List.map_nil]
        | c :: rest' =>
          have hsplit := split_prefix_more hwf hS (by omega)
          rw [scanTokens_read
            (show splitH264Frames b (c :: rest').isEmpty = (0, none) from hsplit)]
          refine ih (u :: rest) (b.drop 0 ++ c) rest' ?_ hwf ?_
          · rw [chunksBytes_cons] at hmu
            rw [List.length_append, List.drop_zero]
            simp only [List.length_cons] at hmu
            omega
          · rw [List.drop_zero, List.append_assoc]
            simpa using hS

/-- Wrapper: any chunking of a well-formed stream scans to exactly the
unit list. -/
lemma scanTokens_units (us : List (Bool × List Nat)) (cs : List (List Nat))
    (hwf : WFUnits us) (hS : cs.join = streamBytes us) :
    scanTokens [] cs = us.map unitBytes :=
  scanTokens_units_aux (2 * chunksBytes cs + cs.length) us [] cs
    (by simp) hwf (by simpa using hS)

/-- Claim C2 (counterexample): the tokens the Frame Framer emits
already include their start codes, so re-prefixing each token with its
original start code does not reconstruct the original byte sequence.
For the two units `00 00 00 01 41` and `00 00 00 01 42` fed as one
chunk, the scanner yields the two start-code-carrying tokens, and
re-prefixing them puts each start code in twice. -/
theorem framer_reprefix_counterexample :
    scanTokens [] [[0, 0, 0, 1, 65, 0, 0, 0, 1, 66]]
        = [[0, 0, 0, 1, 65], [0, 0, 0, 1, 66]] ∧
      ([0, 0, 0, 1] ++ [0, 0, 0, 1, 65]) ++ ([0, 0, 0, 1] ++ [0, 0, 0, 1, 66])
        ≠ [0, 0, 0, 1, 65, 0, 0, 0, 1, 66] := by
  constructor
  · have h := scanTokens_units [(true, [65]), (true, [66])]
      [[0, 0, 0, 1, 65, 0, 0, 0, 1, 66]] (by decide) (by decide)
    rw [h]
    decide
  · decide

/-- Claim C2 (amended): for every byte sequence formed by
concatenating `N` start-code-delimited units (non-empty payloads, no
spurious start-code pattern inside a unit), feeding it through the
Frame Framer in chunks of any sizes yields exactly `N` tokens — each
token being one unit together with its original start code — and
concatenating the tokens themselves (no re-prefixing) reconstructs the
original byte sequence exactly. -/
theorem framer_round_trip (us : List (Bool × List Nat)) (cs : List (List Nat))
    (hwf : WFUnits us) (hcs : cs.join = streamBytes us) :
    scanTokens [] cs = us.map unitBytes ∧
      (scanTokens [] cs).length = us.length ∧
      (scanTokens [] cs).join = streamBytes us := by
  have h := scanTokens_units us cs hwf hcs
  refine ⟨h, ?_, ?_⟩
  · rw [h, List.length_map]
  · rw [h]
    rfl

/-- Claim C2 (amended, witness): the same two units delivered in three
ragged chunks — splitting both start codes across chunk boundaries —
scan to exactly the two tokens, whose concatenation is the original
sequence. -/
theorem framer_round_trip_witness :
    WFUnits [(true, [65]), (true, [66])] ∧
      ([[0, 0, 0], [1, 65, 0], [0, 0, 1, 66]] : List (List Nat)).join
          = streamBytes [(true, [65]), (true, [66])] ∧
      (scanTokens [] [[0, 0, 0], [1, 65, 0], [0, 0, 1, 66]]
          = [(true, [65]), (true, [66])].map unitBytes ∧
        (scanTokens [] [[0, 0, 0], [1, 65, 0], [0, 0, 1, 66]]).length
          = [(true, [65]), (true, [66])].length ∧
        (scanTokens [] [[0, 0, 0], [1, 65, 0], [0, 0, 1, 66]]).join
          = streamBytes [(true, [65]), (true, [66])]) :=
  ⟨by decide, by decide,
    framer_round_trip [(true, [65]), (true, [66])]
      [[0, 0, 0], [1, 65, 0], [0, 0, 1, 66]] (by decide) (by decide)⟩

end GoWebRTC
